import Mathlib

/-!
Verification development for the pymedphys slice consisting of the
Winston-Lutz batch calculation pipeline
(`lib/pymedphys/_experimental/streamlit/apps/wlutz/_calculation.py`) and the
DVH constraint scorer
(`lib/pymedphys/_experimental/streamlit/apps/transfer_check.py`).

The Python code is shallowly embedded:

* Python floats that can hold NaN are modelled by `PyFloat`; the payload of a
  finite float is modelled exactly (the pipeline performs only subtraction on
  these values, so an integer payload captures every distinction the code can
  make, while NaN propagation and NaN (in)equality are modelled explicitly).
* pandas DataFrames are modelled as lists of typed rows;
  `DataFrame.drop_duplicates` (keep-first) is `dropDuplicates`;
  `DataFrame.merge` on a column is `mergeWithDb`.
* External detection routines (`findbb.optimise_bb_centre`,
  `pmp_pylinac_api.run_wlutz`, image loading) are out of scope for the spec;
  their outcomes enter the embedding as explicit parameters, with `none`
  modelling the `ValueError` failure paths that the embedded code catches.
-/

/-- Model of a Python float as used by the pipeline: either NaN (the sentinel
for a failed detection) or a finite value. -/
inductive PyFloat
  | nan
  | val (z : ℤ)
deriving DecidableEq

/-- Is this float the NaN sentinel? -/
def PyFloat.isNaN : PyFloat → Bool
  | .nan => true
  | .val _ => false

/-- Python (IEEE-754) equality test `==`: NaN compares unequal to everything,
including itself. -/
def PyFloat.pyEq : PyFloat → PyFloat → Bool
  | .val a, .val b => a = b
  | _, _ => false

/-- Python subtraction: NaN propagates. -/
def PyFloat.sub : PyFloat → PyFloat → PyFloat
  | .val a, .val b => .val (a - b)
  | _, _ => .nan

/-- Model of `DataFrame.drop_duplicates` with the default `keep="first"`:
the first occurrence of each row is retained, in order. -/
def dropDuplicates {α : Type} [DecidableEq α] : List α → List α
  | [] => []
  | a :: l => a :: (dropDuplicates l).filter (fun x => x ≠ a)

theorem mem_dropDuplicates {α : Type} [DecidableEq α] {x : α} {l : List α} :
    x ∈ dropDuplicates l ↔ x ∈ l := by
  induction l with
  | nil => simp [dropDuplicates]
  | cons a l ih =>
    simp only [dropDuplicates, List.mem_cons, List.mem_filter, ih]
    constructor
    · rintro (rfl | ⟨h, _⟩)
      · exact Or.inl rfl
      · exact Or.inr h
    · rintro (rfl | h)
      · exact Or.inl rfl
      · by_cases hx : x = a
        · exact Or.inl hx
        · exact Or.inr ⟨h, by simpa using hx⟩

theorem nodup_dropDuplicates {α : Type} [DecidableEq α] (l : List α) :
    (dropDuplicates l).Nodup := by
  induction l with
  | nil => simp [dropDuplicates]
  | cons a l ih =>
    simp only [dropDuplicates, List.nodup_cons]
    refine ⟨?_, ih.filter _⟩
    intro hmem
    rcases List.mem_filter.mp hmem with ⟨_, hne⟩
    simp at hne

theorem dropDuplicates_eq_self {α : Type} [DecidableEq α] {l : List α}
    (h : l.Nodup) : dropDuplicates l = l := by
  induction l with
  | nil => rfl
  | cons a l ih =>
    rcases List.nodup_cons.mp h with ⟨ha, hl⟩
    simp only [dropDuplicates, ih hl]
    congr 1
    apply List.filter_eq_self.mpr
    intro x hx
    simp only [ne_eq, decide_eq_true_eq]
    rintro rfl
    exact ha hx

theorem filter_dropDuplicates {α : Type} [DecidableEq α] (p : α → Bool)
    (l : List α) : (dropDuplicates l).filter p = dropDuplicates (l.filter p) := by
  induction l with
  | nil => rfl
  | cons a l ih =>
    have key : ((dropDuplicates l).filter (fun x => x ≠ a)).filter p
        = (dropDuplicates (l.filter p)).filter (fun x => x ≠ a) := by
      rw [List.filter_filter, ← ih, List.filter_filter]
      exact List.filter_congr (fun x _ => Bool.and_comm _ _)
    by_cases hp : p a
    · simp only [dropDuplicates, List.filter_cons, hp, if_pos, key]
    · simp only [dropDuplicates, List.filter_cons, hp, Bool.false_eq_true,
        if_neg, not_false_iff, key]
      apply List.filter_eq_self.mpr
      intro x hx
      have hxl : x ∈ l.filter p := mem_dropDuplicates.mp hx
      rcases List.mem_filter.mp hxl with ⟨_, hpx⟩
      simp only [ne_eq, decide_eq_true_eq]
      rintro rfl
      rw [hpx] at hp
      exact hp rfl

theorem dropDuplicates_append_aux {α : Type} [DecidableEq α] (n : ℕ) :
    ∀ l₁ l₂ : List α, l₁.length ≤ n → (∀ x ∈ l₂, x ∈ l₁) →
      dropDuplicates (l₁ ++ l₂) = dropDuplicates l₁ := by
  induction n with
  | zero =>
    intro l₁ l₂ hlen h
    have h₁ : l₁ = [] := List.length_eq_zero.mp (Nat.le_zero.mp hlen)
    subst h₁
    have : l₂ = [] := List.eq_nil_iff_forall_not_mem.mpr (fun a ha => by
      simpa using h a ha)
    simp [this]
  | succ n ih =>
    intro l₁ l₂ hlen h
    match l₁ with
    | [] =>
      have : l₂ = [] := List.eq_nil_iff_forall_not_mem.mpr (fun a ha => by
        simpa using h a ha)
      simp [this]
    | a :: l₁ =>
      simp only [List.cons_append, dropDuplicates]
      congr 1
      rw [filter_dropDuplicates, filter_dropDuplicates]
      simp only [List.append_eq, List.filter_append]
      apply ih
      · calc (l₁.filter (fun x => x ≠ a)).length ≤ l₁.length :=
              List.length_filter_le _ _
          _ ≤ n := by simpa using Nat.lt_succ_iff.mp (Nat.lt_of_lt_of_le
              (Nat.lt_succ_of_le (Nat.le_refl _)) (by simpa using hlen))
      · intro x hx
        rcases List.mem_filter.mp hx with ⟨hmem, hne⟩
        have := h x hmem
        rcases List.mem_cons.mp this with rfl | hmem'
        · simp at hne
        · exact List.mem_filter.mpr ⟨hmem', hne⟩

theorem dropDuplicates_append_of_subset {α : Type} [DecidableEq α]
    {l₁ l₂ : List α} (h : ∀ x ∈ l₂, x ∈ l₁) :
    dropDuplicates (l₁ ++ l₂) = dropDuplicates l₁ :=
  dropDuplicates_append_aux l₁.length l₁ l₂ (Nat.le_refl _) h

/-!
## Field/BB locator (`_calculation.py`, lines 329-422)

The two detection algorithm variants and the cached dispatcher
`_calculate_wlutz`. Quantities that the code obtains from collaborators
outside this slice (the interpolated field, the upstream PyMedPhys field
centre and rotation from `_get_pymedphys_field_centre_and_rotation`, and the
outcomes of `findbb.optimise_bb_centre` and `pmp_pylinac_api.run_wlutz`) are
supplied as fields of `WlutzParams`; a `none` outcome models the
`ValueError` that the corresponding `try`/`except ValueError` block catches.
-/

/-- An (x, y) coordinate pair of Python floats. -/
abbrev Coord := PyFloat × PyFloat

/-- The inputs of `_calculate_wlutz` after `_get_wlutz_input_parameters`:
the upstream field centre and rotation plus the (abstracted) outcomes of the
two external detection calls. -/
structure WlutzParams where
  pymedphys_field_centre : Coord
  field_rotation : PyFloat
  bb_opt_result : Option Coord
  pylinac_result : Option (Coord × Coord)
deriving DecidableEq

/-- The `(field_centre, field_rotation, bb_centre)` triple returned by the
locator. -/
structure WlutzTriple where
  field_centre : Coord
  field_rotation : PyFloat
  bb_centre : Coord
deriving DecidableEq

/-- Embeds `_pymedphys_wlutz_calculate` (lines 348-372): the field centre and
rotation are passed through from the upstream field detection; only the BB
optimisation runs here, and on `ValueError` the BB centre alone degrades to
`[np.nan, np.nan]`. -/
def pymedphys_wlutz_calculate (p : WlutzParams) : WlutzTriple :=
  { field_centre := p.pymedphys_field_centre
    field_rotation := p.field_rotation
    bb_centre :=
      match p.bb_opt_result with
      | some bb => bb
      | none => (.nan, .nan) }

/-- Embeds `_pylinac_wlutz_calculate` (lines 375-400): on `ValueError` both
the field centre and the BB centre degrade to `[np.nan, np.nan]` together;
the rotation is passed through unchanged in both branches. -/
def pylinac_wlutz_calculate (p : WlutzParams) : WlutzTriple :=
  match p.pylinac_result with
  | some r => { field_centre := r.1, field_rotation := p.field_rotation, bb_centre := r.2 }
  | none => { field_centre := (.nan, .nan), field_rotation := p.field_rotation,
              bb_centre := (.nan, .nan) }

/-- The two selectable algorithm names (keys of `ALGORITHM_FUNCTION_MAP`). -/
inductive Algorithm
  | PyMedPhys
  | PyLinac
deriving DecidableEq

/-- Embeds `ALGORITHM_FUNCTION_MAP` (lines 403-406). -/
def ALGORITHM_FUNCTION_MAP : Algorithm → WlutzParams → WlutzTriple
  | .PyMedPhys => pymedphys_wlutz_calculate
  | .PyLinac => pylinac_wlutz_calculate

/-- Embeds `_calculate_wlutz` (lines 329-345): the guard
`wlutz_input_parameters["field_rotation"] == np.nan` uses Python `==`
(modelled by `PyFloat.pyEq`), and the selected algorithm function is called
in the `else` branch. -/
def calculate_wlutz (alg : Algorithm) (p : WlutzParams) : WlutzTriple :=
  if p.field_rotation.pyEq .nan then
    { field_centre := (.nan, .nan), field_rotation := .nan, bb_centre := (.nan, .nan) }
  else
    ALGORITHM_FUNCTION_MAP alg p

/-- The all-or-nothing invariant claimed for the four coordinate values of a
detection result: the field centre pair and the BB centre pair are either all
finite or all NaN as a unit. -/
def coordUnitInvariant (t : WlutzTriple) : Bool :=
  (!t.field_centre.1.isNaN && !t.field_centre.2.isNaN
      && !t.bb_centre.1.isNaN && !t.bb_centre.2.isNaN)
    || (t.field_centre.1.isNaN && t.field_centre.2.isNaN
      && t.bb_centre.1.isNaN && t.bb_centre.2.isNaN)

/-!
## Batch runner (`_calculation.py`, lines 28-267)

Rows of the dataset table, of the per-image results table, and of the merged
(contextualised) table. Detection is abstracted as a function
`detect : filepath → algorithm name → edge lengths → WlutzTriple`,
standing for the (memoised, hence deterministic within a run) call to
`_calculate_wlutz` with the run's fixed `bb_diameter` and `penumbra`.
-/

/-- One row of `database_table`: the required dataset columns. -/
structure DbRow where
  filepath : String
  treatment : String
  port : String
  gantry : ℤ
  collimator : ℤ
  width : ℤ
  length : ℤ
deriving DecidableEq

/-- One row of the per-image results table, with exactly the columns of
`RESULTS_DATA_COLUMNS` (lines 28-38). -/
structure ResultRow where
  filepath : String
  algorithm : String
  diff_x : PyFloat
  diff_y : PyFloat
  field_centre_x : PyFloat
  field_centre_y : PyFloat
  field_rotation : PyFloat
  bb_centre_x : PyFloat
  bb_centre_y : PyFloat
deriving DecidableEq

/-- One row of the contextualised table
`results.merge(database_table, on="filepath")`: a results row joined with
the dataset metadata of a matching dataset row. -/
structure ContextRow where
  res : ResultRow
  treatment : String
  port : String
  gantry : ℤ
  collimator : ℤ
  width : ℤ
  length : ℤ
deriving DecidableEq

/-- Builds the results dictionary appended for one algorithm
(lines 248-260): `diff = field_centre - bb_centre` componentwise. -/
def mkResultRow (fp alg : String) (t : WlutzTriple) : ResultRow :=
  { filepath := fp
    algorithm := alg
    diff_x := t.field_centre.1.sub t.bb_centre.1
    diff_y := t.field_centre.2.sub t.bb_centre.2
    field_centre_x := t.field_centre.1
    field_centre_y := t.field_centre.2
    field_rotation := t.field_rotation
    bb_centre_x := t.bb_centre.1
    bb_centre_y := t.bb_centre.2 }

/-- Embeds `get_results_for_image` (lines 231-262): one results row per
selected algorithm, in selection order. -/
def get_results_for_image (detect : String → String → ℤ × ℤ → WlutzTriple)
    (fp : String) (algs : List String) (edges : ℤ × ℤ) : List ResultRow :=
  algs.map (fun alg => mkResultRow fp alg (detect fp alg edges))

/-- The join of one results row with one dataset row (the merge keeps the
single `filepath` key column plus the metadata columns). -/
def mkContextRow (r : ResultRow) (d : DbRow) : ContextRow :=
  { res := r
    treatment := d.treatment
    port := d.port
    gantry := d.gantry
    collimator := d.collimator
    width := d.width
    length := d.length }

/-- Embeds `results.merge(database_table, left_on="filepath",
right_on="filepath")` (lines 136-138): an inner join on the filepath
column, left row order preserved. -/
def mergeWithDb (rows : List ResultRow) (db : List DbRow) : List ContextRow :=
  rows.flatMap (fun r =>
    (db.filter (fun d => d.filepath = r.filepath)).map (fun d => mkContextRow r d))

/-- Embeds the per-row reuse-or-recompute decision of the main loop
(lines 66-91): with a loaded persisted table, the persisted rows for this
filepath are projected to `RESULTS_DATA_COLUMNS`; if every selected
algorithm appears among their algorithm values the projected rows are reused,
otherwise `get_results_for_image` is invoked with every selected
algorithm. -/
def processRow (prev : Option (List ContextRow)) (algs : List String)
    (fp : String) (edges : ℤ × ℤ)
    (detect : String → String → ℤ × ℤ → WlutzTriple) : List ResultRow :=
  match prev with
  | none => get_results_for_image detect fp algs edges
  | some p =>
    let persisted := (p.filter (fun c => c.res.filepath = fp)).map (fun c => c.res)
    if algs.all (fun a => (persisted.map (fun r => r.algorithm)).contains a) then
      persisted
    else
      get_results_for_image detect fp algs edges

/-- The index pairing of the main loop (lines 66-80): position `i` of
`enumerate(database_table["filepath"][::-1])` yields the filepath of the
reversed table, while `row = database_table.iloc[i]` indexes the table in
forward order. Element `i` is therefore
`(reversed row i, forward row i)`. -/
def loopPairs (db : List DbRow) : List (DbRow × DbRow) :=
  db.reverse.zip db

/-- The concatenation of all per-row results accumulated into
`collated_results` over the main loop: the filepath comes from the reversed
pair component, the edge lengths `[row["width"], row["length"]]` from the
forward pair component (lines 80-93). -/
def loopResults (db : List DbRow) (prev : Option (List ContextRow))
    (algs : List String)
    (detect : String → String → ℤ × ℤ → WlutzTriple) : List ResultRow :=
  (loopPairs db).flatMap (fun p =>
    processRow prev algs p.1.filepath (p.2.width, p.2.length) detect)

/-- Embeds the results-producing part of `run_calculation` (lines 41-149):
collate per-row results, join with the dataset table, concatenate with the
previously persisted table (`pd.concat` drops a `None` member), drop exact
duplicate rows, and return the merged table that overwrites
`raw_results.csv`. -/
def run_calculation (db : List DbRow) (prev : Option (List ContextRow))
    (algs : List String)
    (detect : String → String → ℤ × ℤ → WlutzTriple) : List ContextRow :=
  dropDuplicates
    (mergeWithDb (loopResults db prev algs detect) db ++ prev.getD [])

/-- The algorithms for which the per-row step actually invokes detection:
none on the reuse path, every selected algorithm on the recompute path
(mirrors the call structure of lines 66-91 together with the loop of
lines 243-247). -/
def processRowInvoked (prev : Option (List ContextRow)) (algs : List String)
    (fp : String) : List String :=
  match prev with
  | none => algs
  | some p =>
    let persisted := (p.filter (fun c => c.res.filepath = fp)).map (fun c => c.res)
    if algs.all (fun a => (persisted.map (fun r => r.algorithm)).contains a) then
      []
    else
      algs

/-- The selected algorithms that have no persisted row for this filepath. -/
def missingAlgorithms (p : List ContextRow) (algs : List String)
    (fp : String) : List String :=
  algs.filter (fun a =>
    !(((p.filter (fun c => c.res.filepath = fp)).map
        (fun c => c.res.algorithm)).contains a))

/-!
## Persisted-results loading and the column check (`_calculation.py`,
lines 28-55 and 262-267)
-/

/-- The expected column list `RESULTS_DATA_COLUMNS` (lines 28-38). -/
def RESULTS_DATA_COLUMNS : List String :=
  ["filepath", "algorithm", "diff_x", "diff_y", "field_centre_x",
   "field_centre_y", "field_rotation", "bb_centre_x", "bb_centre_y"]

/-- A persisted `raw_results.csv` file as far as the load step inspects it:
its column list. -/
structure PersistedFile where
  columns : List String
deriving DecidableEq

/-- Embeds the load step of `run_calculation` (lines 49-55):
`pd.read_csv(raw_results_csv_path, index_col=False)` wrapped in
`try`/`except FileNotFoundError`. An absent file (`none`) yields
`previously_calculated_results = None`; a present file is returned as read.
No inspection of the file's columns happens here. -/
def loadPreviousResults (file : Option PersistedFile) :
    Except String (Option PersistedFile) :=
  match file with
  | none => Except.ok none
  | some f => Except.ok (some f)

/-- The column list of `pd.DataFrame.from_dict(results_data)` built by
`get_results_for_image` (lines 241-262): the keys of the appended
dictionaries when at least one algorithm is selected, and no columns at all
when `selected_algorithms` is empty (an empty list of dictionaries produces a
frame with no columns). -/
def computedResultsColumns (algs : List String) : List String :=
  match algs with
  | [] => []
  | _ :: _ => RESULTS_DATA_COLUMNS

/-- Embeds `get_results_for_image` together with its final column check
(lines 264-265): `if set(results.columns) != set(RESULTS_DATA_COLUMNS):
raise ValueError("Unexpected columns")`. This check applies to the freshly
computed results frame, not to the loaded persisted table. -/
def get_results_for_image_checked
    (detect : String → String → ℤ × ℤ → WlutzTriple) (fp : String)
    (algs : List String) (edges : ℤ × ℤ) : Except String (List ResultRow) :=
  if (computedResultsColumns algs).toFinset = RESULTS_DATA_COLUMNS.toFinset then
    Except.ok (get_results_for_image detect fp algs edges)
  else
    Except.error "Unexpected columns"

/-!
## Constraint scorer (`transfer_check.py`, lines 228-499)

DVH queries (`dicompylercore`) are external collaborators; a `DVH` value
carries the query results the scorer reads: `mean`, `max`, total `volume`,
`dose_constraint(v)` on a relative-volume basis, `dose_constraint(v, "cm3")`
on an absolute-volume basis, and `volume_constraint(d, "Gy")`.
-/

/-- The DVH of one matched structure, as queried by the scorer. -/
structure DVH where
  mean : ℚ
  dvhMax : ℚ
  volume : ℚ
  doseAtRelVol : ℚ → ℚ
  doseAtAbsVol : ℚ → ℚ
  volumeAtDose : ℚ → ℚ

/-- One constraint entry of the `CONSTRAINTS` table for one constraint type:
either the literal placeholder `" "` or a list of `(dose, volume)` threshold
tuples. -/
inductive Constraint
  | placeholder
  | entries (l : List (ℚ × ℚ))
deriving DecidableEq

/-- One row of the scored constraint frame: the `Structure`, `Structure_Key`,
`Type`, `Dose [Gy]`, `Volume [%]`, `Actual Dose [Gy]`, `Actual Volume [%]`
and `Score` columns. Cells holding the literal `"-"` are modelled as
`none`. -/
structure ScoreRow where
  roiName : String
  structureKey : String
  ctype : String
  doseGy : Option ℚ
  volPct : Option ℚ
  actualDoseGy : Option ℚ
  actualVolPct : Option ℚ
  score : ℚ
deriving DecidableEq

/-- Embeds the constraint-row loop of `compare_structure_with_constraints`
(lines 266-349): for each constraint type with a non-placeholder entry list,
one row per threshold tuple, with the scores computed exactly as in the
source (`Mean`/`Max`: threshold minus DVH statistic; `V%` and `D%`: sum of
the dose difference and the volume-percentage difference). -/
def constraintRows (roi skey : String) (dvh : DVH)
    (cons : List (String × Constraint)) : List ScoreRow :=
  cons.flatMap (fun tc =>
    match tc.2 with
    | Constraint.placeholder => []
    | Constraint.entries l =>
      if tc.1 = "Mean" then
        l.map (fun e =>
          { roiName := roi, structureKey := skey, ctype := "Mean"
            doseGy := some e.1, volPct := none
            actualDoseGy := some dvh.mean, actualVolPct := none
            score := e.1 - dvh.mean })
      else if tc.1 = "Max" then
        l.map (fun e =>
          { roiName := roi, structureKey := skey, ctype := "Max"
            doseGy := some e.1, volPct := none
            actualDoseGy := some dvh.dvhMax, actualVolPct := none
            score := e.1 - dvh.dvhMax })
      else if tc.1 = "V%" then
        l.map (fun e =>
          let dc := e.1
          let vc := e.2 * 100
          let actualDose := dvh.doseAtRelVol vc
          let actualVol := dvh.volumeAtDose dc / dvh.volume * 100
          { roiName := roi, structureKey := skey, ctype := "V%"
            doseGy := some dc, volPct := some vc
            actualDoseGy := some actualDose, actualVolPct := some actualVol
            score := (dc - actualDose) + (vc - actualVol) })
      else if tc.1 = "D%" then
        l.map (fun e =>
          let dc := e.1
          let vc := e.2
          let actualDose := dvh.doseAtAbsVol vc
          let actualVol := dvh.volumeAtDose dc / dvh.volume * 100
          { roiName := roi, structureKey := skey, ctype := "D%"
            doseGy := some dc, volPct := some vc
            actualDoseGy := some actualDose, actualVolPct := some actualVol
            score := (dc - actualDose) + (vc / dvh.volume * 100 - actualVol) })
      else [])

/-- Embeds `calculate_average_OAR_score` (lines 355-370): one row of type
`"Average Score"` is appended whose score is `structure_df["Score"].mean()`.
On an empty frame `structure_df.iloc[0]` raises `IndexError`, modelled as
`none`. -/
def calculate_average_OAR_score (df : List ScoreRow) :
    Option (List ScoreRow) :=
  match df with
  | [] => none
  | r :: _ =>
    some (df ++
      [{ roiName := r.roiName, structureKey := r.structureKey
         ctype := "Average Score"
         doseGy := none, volPct := none
         actualDoseGy := none, actualVolPct := none
         score := (df.map (fun x => x.score)).sum / df.length }])

/-- Embeds `compare_structure_with_constraints` (lines 266-352): the
constraint rows for one matched (ROI, structure key) pair followed by the
appended average row. -/
def compare_structure_with_constraints (roi skey : String) (dvh : DVH)
    (cons : List (String × Constraint)) : Option (List ScoreRow) :=
  calculate_average_OAR_score (constraintRows roi skey dvh cons)

/-- Embeds `calculate_total_score` (lines 373-387): one `"Total Score"` row
is appended whose score is the sum of the scores of the rows with type
`"Average Score"`. -/
def calculate_total_score (df : List ScoreRow) : List ScoreRow :=
  df ++
    [{ roiName := "Total Patient", structureKey := "Total Patient"
       ctype := "Total Score"
       doseGy := none, volPct := none
       actualDoseGy := none, actualVolPct := none
       score := ((df.filter (fun r => r.ctype = "Average Score")).map
         (fun r => r.score)).sum }]

/-- Python `str.lower()` restricted to its ASCII action, which is total on
the ASCII ROI labels and aliases this table holds. -/
def pyLower (s : String) : String :=
  String.mk (s.data.map Char.toLower)

/-- Python `str.strip(" ")`: remove leading and trailing space characters. -/
def stripSpaces (s : String) : String :=
  String.mk
    (((s.data.dropWhile (fun c => c = ' ')).reverse.dropWhile
      (fun c => c = ' ')).reverse)

/-- The normalisation `roi.lower().strip(" ")` applied to an ROI label
before alias lookup (line 463). -/
def pyLowerStrip (s : String) : String :=
  stripSpaces (pyLower s)

/-- Embeds the alias-matching double loop of `main` (lines 461-469): for each
ROI in DVH order, for each structure key in alias-table order, the pair is
kept exactly when the normalised ROI label is a member of that structure's
alias list. -/
def matchedPairs (rois : List String)
    (aliases : List (String × List String)) : List (String × String) :=
  rois.flatMap (fun roi =>
    (aliases.filter (fun p => pyLowerStrip roi ∈ p.2)).map
      (fun p => (roi, p.1)))

/-- The accumulation of `constraints_df` over the matched pairs
(lines 459-469): each matched pair's scored frame is concatenated in order;
a crash inside `compare_structure_with_constraints` propagates. -/
def collectScores (dvhOf : String → DVH)
    (consOf : String → List (String × Constraint)) :
    List (String × String) → Option (List ScoreRow)
  | [] => some []
  | p :: rest =>
    match compare_structure_with_constraints p.1 p.2 (dvhOf p.1) (consOf p.2),
        collectScores dvhOf consOf rest with
    | some df, some acc => some (df ++ acc)
    | _, _ => none

/-- Embeds the construction of the final scored table in `main`
(lines 459-471): the concatenated per-structure frames followed by
`calculate_total_score`. -/
def buildConstraintsTable (rois : List String)
    (aliases : List (String × List String)) (dvhOf : String → DVH)
    (consOf : String → List (String × Constraint)) :
    Option (List ScoreRow) :=
  (collectScores dvhOf consOf (matchedPairs rois aliases)).map
    calculate_total_score

/-- The number of rows of type `ty` in a scored table. -/
def countType (df : List ScoreRow) (ty : String) : ℕ :=
  (df.filter (fun r => r.ctype = ty)).length

/-- The scores of the rows of type `ty`, in row order. -/
def scoresOfType (df : List ScoreRow) (ty : String) : List ℚ :=
  (df.filter (fun r => r.ctype = ty)).map (fun r => r.score)

/-!
## Shared concrete example inputs for witnesses and counterexamples
-/

/-- A concrete successful detection outcome. -/
def exTriple : WlutzTriple :=
  { field_centre := (.val 1, .val 1), field_rotation := .val 0
    bb_centre := (.val 0, .val 0) }

/-- A concrete detection function. -/
def exDetect : String → String → ℤ × ℤ → WlutzTriple :=
  fun _ _ _ => exTriple

/-- A concrete persisted context row for filepath `"a"`, algorithm `"A"`,
with data differing from what `exDetect` computes. -/
def exPrevRowA : ContextRow :=
  { res := { filepath := "a", algorithm := "A"
             diff_x := .val 0, diff_y := .val 0
             field_centre_x := .val 0, field_centre_y := .val 0
             field_rotation := .val 0
             bb_centre_x := .val 0, bb_centre_y := .val 0 }
    treatment := "t", port := "p", gantry := 0, collimator := 0
    width := 2, length := 3 }

/-- A concrete one-row dataset matching `exPrevRowA`'s filepath. -/
def exDb : List DbRow :=
  [{ filepath := "a", treatment := "t", port := "p", gantry := 0
     collimator := 0, width := 2, length := 3 }]

/-!
## Claims C1 and C10: the locator's NaN behaviour
-/

/-- C10: the guard `wlutz_input_parameters["field_rotation"] == np.nan` in
`_calculate_wlutz` is false for every input because Python `==` never holds
against NaN, so the all-NaN shortcut branch is unreachable and the selected
algorithm function from `ALGORITHM_FUNCTION_MAP` is invoked for every
(image, algorithm) call, including when the upstream field detection already
degraded the rotation to NaN. -/
theorem C10_nan_guard_unreachable (alg : Algorithm) (p : WlutzParams) :
    p.field_rotation.pyEq .nan = false ∧
      calculate_wlutz alg p = ALGORITHM_FUNCTION_MAP alg p := by
  have h : p.field_rotation.pyEq .nan = false := by
    cases p.field_rotation <;> rfl
  exact ⟨h, by simp [calculate_wlutz, h]⟩

/-- C1 counterexample: with the PyMedPhys algorithm, a finite upstream field
centre and a failed BB optimisation (`findbb.optimise_bb_centre` raising
`ValueError`, modelled by `bb_opt_result = none`) produce a result with a
finite field centre and a NaN BB centre, so the four coordinate values are
not all finite or all NaN as a unit. -/
theorem C1_counterexample :
    ¬ (coordUnitInvariant (calculate_wlutz .PyMedPhys
      { pymedphys_field_centre := (.val 0, .val 0), field_rotation := .val 0
        bb_opt_result := none, pylinac_result := none }) = true) := by
  decide

/-- C1 amended: the BB centre degrades to NaN as a pair, and the PyLinac
algorithm's failure path degrades all four coordinates as a unit, but the
PyMedPhys algorithm passes the upstream field centre through unchanged while
independently degrading the BB centre on BB-optimisation failure, so a
result with a finite field centre and a NaN BB centre is produced whenever
the upstream field centre is finite and the BB optimisation fails. -/
theorem C1_amended_partial_failure (fc : Coord) (rot : PyFloat)
    (plr : Option (Coord × Coord)) (bbr : Option Coord) :
    (calculate_wlutz .PyMedPhys
        { pymedphys_field_centre := fc, field_rotation := rot
          bb_opt_result := none, pylinac_result := plr }).field_centre = fc ∧
    (calculate_wlutz .PyMedPhys
        { pymedphys_field_centre := fc, field_rotation := rot
          bb_opt_result := none, pylinac_result := plr }).bb_centre
      = (.nan, .nan) ∧
    calculate_wlutz .PyLinac
        { pymedphys_field_centre := fc, field_rotation := rot
          bb_opt_result := bbr, pylinac_result := none }
      = { field_centre := (.nan, .nan), field_rotation := rot
          bb_centre := (.nan, .nan) } := by
  have h : rot.pyEq .nan = false := by cases rot <;> rfl
  refine ⟨?_, ?_, ?_⟩ <;>
    simp [calculate_wlutz, h, ALGORITHM_FUNCTION_MAP,
      pymedphys_wlutz_calculate, pylinac_wlutz_calculate]

/-!
## Claim C2: per-row reuse versus recompute
-/

/-- C2 counterexample: with a persisted table holding only algorithm `"A"`
for filepath `"a"` and selected algorithms `["A", "B"]`, detection is
invoked for `"A"` even though `"A"` is not missing from the persisted
table — the recompute path runs every selected algorithm, not only the
missing ones. -/
theorem C2_counterexample :
    "A" ∈ processRowInvoked (some [exPrevRowA]) ["A", "B"] "a" ∧
      "A" ∉ missingAlgorithms [exPrevRowA] ["A", "B"] "a" := by
  decide

/-- C2 amended: for each dataset row, if every selected algorithm already
has a persisted row for the image's filepath (no missing algorithm), the
persisted rows are reused and no detection is invoked; otherwise detection
is invoked for every selected algorithm, including those already
persisted. -/
theorem C2_amended_recompute_all (prev : List ContextRow)
    (algs : List String) (fp : String) (edges : ℤ × ℤ)
    (detect : String → String → ℤ × ℤ → WlutzTriple) :
    processRowInvoked (some prev) algs fp
        = (if missingAlgorithms prev algs fp = [] then [] else algs) ∧
      processRow (some prev) algs fp edges detect
        = (if missingAlgorithms prev algs fp = [] then
            (prev.filter (fun c => c.res.filepath = fp)).map (fun c => c.res)
          else get_results_for_image detect fp algs edges) := by
  have hiff :
      (algs.all (fun a =>
        ((((prev.filter (fun c => c.res.filepath = fp)).map
          (fun c => c.res)).map (fun r => r.algorithm)).contains a)) = true)
        ↔ missingAlgorithms prev algs fp = [] := by
    rw [List.all_eq_true, missingAlgorithms, List.filter_eq_nil_iff]
    constructor
    · intro h a ha
      have := h a ha
      simp only [List.map_map] at this ⊢
      simp only [Bool.not_eq_true', Bool.not_eq_false]
      simpa using this
    · intro h a ha
      have := h a ha
      simp only [List.map_map]
      simp only [Bool.not_eq_true', Bool.not_eq_false] at this
      simpa using this
  by_cases hm : missingAlgorithms prev algs fp = []
  · have hall := hiff.mpr hm
    constructor
    · simp only [processRowInvoked, hall, hm]
    · simp only [processRow, hall, hm]
  · have hall : (algs.all (fun a =>
        ((((prev.filter (fun c => c.res.filepath = fp)).map
          (fun c => c.res)).map (fun r => r.algorithm)).contains a))) = false := by
      cases hc : (algs.all (fun a =>
        ((((prev.filter (fun c => c.res.filepath = fp)).map
          (fun c => c.res)).map (fun r => r.algorithm)).contains a)))
      · rfl
      · exact absurd (hiff.mp hc) hm
    constructor
    · simp only [processRowInvoked, hall]
      simp [hm]
    · simp only [processRow, hall]
      simp [hm]

/-!
## Claim C6: the schema check
-/

/-- C6 counterexample: a persisted results file whose column set is the nine
expected columns plus `"treatment"` differs from the expected column set,
yet the load step accepts it unchanged — no "unexpected columns" failure
happens at load time. -/
theorem C6_counterexample :
    (PersistedFile.mk (RESULTS_DATA_COLUMNS ++ ["treatment"])).columns.toFinset
        ≠ RESULTS_DATA_COLUMNS.toFinset ∧
      loadPreviousResults
          (some (PersistedFile.mk (RESULTS_DATA_COLUMNS ++ ["treatment"])))
        = Except.ok
            (some (PersistedFile.mk (RESULTS_DATA_COLUMNS ++ ["treatment"]))) := by
  constructor
  · decide
  · rfl

/-- C6 amended: the load step performs no column validation at all — every
present persisted file is loaded successfully regardless of its column
set — and the `"Unexpected columns"` error is raised only inside
`get_results_for_image` against the freshly computed results frame, whose
column set always equals the nine expected columns whenever at least one
algorithm is selected, so that check passes there. -/
theorem C6_amended_no_load_check :
    (∀ f : PersistedFile,
      loadPreviousResults (some f) = Except.ok (some f)) ∧
    (∀ (detect : String → String → ℤ × ℤ → WlutzTriple) (fp : String)
        (algs : List String) (edges : ℤ × ℤ), algs ≠ [] →
      get_results_for_image_checked detect fp algs edges
        = Except.ok (get_results_for_image detect fp algs edges)) := by
  refine ⟨fun f => rfl, ?_⟩
  intro detect fp algs edges halgs
  match algs, halgs with
  | a :: rest, _ =>
    simp [get_results_for_image_checked, computedResultsColumns]

/-- C6 amended witness: the checked computation succeeds on a concrete
nonempty algorithm selection. -/
theorem C6_amended_no_load_check_witness :
    get_results_for_image_checked exDetect "a" ["PyMedPhys"] (2, 3)
      = Except.ok (get_results_for_image exDetect "a" ["PyMedPhys"] (2, 3)) :=
  C6_amended_no_load_check.2 exDetect "a" ["PyMedPhys"] (2, 3) (by decide)

/-!
## Claim C5: reversed filepaths versus forward geometry
-/

/-- C5: at loop position `i` the batch runner pairs the filepath of the
reversed dataset row `db.length - 1 - i` with the `width`/`length` geometry
of the forward row `i`, and recomputation consumes exactly these pairs; so
whenever rows `i` and `db.length - 1 - i` differ in width or length, the
recomputed image at position `i` is processed with the edge lengths of a
dataset row other than the one its filepath belongs to. -/
theorem C5_reversed_filepath_forward_geometry (db : List DbRow)
    (algs : List String) (detect : String → String → ℤ × ℤ → WlutzTriple)
    (i : ℕ) (hi : i < db.length)
    (hdiff : ((db.get ⟨i, hi⟩).width, (db.get ⟨i, hi⟩).length)
        ≠ ((db.get ⟨db.length - 1 - i, by omega⟩).width,
           (db.get ⟨db.length - 1 - i, by omega⟩).length)) :
    ∃ hz : i < (loopPairs db).length,
      (loopPairs db).get ⟨i, hz⟩
          = (db.get ⟨db.length - 1 - i, by omega⟩, db.get ⟨i, hi⟩)
        ∧ (((loopPairs db).get ⟨i, hz⟩).2.width,
              ((loopPairs db).get ⟨i, hz⟩).2.length)
            ≠ (((loopPairs db).get ⟨i, hz⟩).1.width,
               ((loopPairs db).get ⟨i, hz⟩).1.length)
        ∧ loopResults db none algs detect
            = (loopPairs db).flatMap (fun p =>
                get_results_for_image detect p.1.filepath algs
                  (p.2.width, p.2.length)) := by
  have hz : i < (loopPairs db).length := by
    simp only [loopPairs, List.length_zip, List.length_reverse, min_self]
    exact hi
  have h1 : (loopPairs db).get ⟨i, hz⟩
      = (db.get ⟨db.length - 1 - i, by omega⟩, db.get ⟨i, hi⟩) := by
    simp only [List.get_eq_getElem, loopPairs]
    rw [List.getElem_zip]
    congr 1
    rw [List.getElem_reverse]
  refine ⟨hz, h1, ?_, rfl⟩
  rw [h1]
  intro h
  exact hdiff h

/-!
## Claim C4: deduplication of the merged table
-/

/-- C4 counterexample: with a persisted row for (filepath `"a"`, algorithm
`"A"`) whose values differ from the freshly computed ones, and a selection
that forces a recompute (algorithm `"B"` is missing), the merged table
written at the end of the run keeps both the old and the new `"A"` row:
dropping exact duplicate rows does not enforce uniqueness of
(filepath, algorithm) pairs. -/
theorem C4_counterexample :
    ¬ ((run_calculation exDb (some [exPrevRowA]) ["A", "B"] exDetect).map
        (fun c => (c.res.filepath, c.res.algorithm))).Nodup := by
  decide

/-- C4 amended: after the end-of-run merge of newly computed results with
the previously persisted results, the table that overwrites the persisted
results file contains no two identical rows (exact duplicates are dropped);
two distinct rows may still share the same (filepath, algorithm) pair. -/
theorem C4_amended_no_duplicate_rows (db : List DbRow)
    (prev : Option (List ContextRow)) (algs : List String)
    (detect : String → String → ℤ × ℤ → WlutzTriple) :
    (run_calculation db prev algs detect).Nodup :=
  nodup_dropDuplicates _

/-!
## Claim C3: idempotence of a second run

Supporting lemmas about the blocks of the batch loop.
-/

theorem get_results_filepath
    {detect : String → String → ℤ × ℤ → WlutzTriple} {fp : String}
    {algs : List String} {edges : ℤ × ℤ} {x : ResultRow}
    (hx : x ∈ get_results_for_image detect fp algs edges) : x.filepath = fp := by
  rcases List.mem_map.mp hx with ⟨a, _, rfl⟩
  rfl

theorem map_algorithm_get_results
    (detect : String → String → ℤ × ℤ → WlutzTriple) (fp : String)
    (algs : List String) (edges : ℤ × ℤ) :
    (get_results_for_image detect fp algs edges).map (fun r => r.algorithm)
      = algs := by
  unfold get_results_for_image
  rw [List.map_map]
  have h : ((fun r : ResultRow => r.algorithm)
      ∘ (fun alg => mkResultRow fp alg (detect fp alg edges))) = fun a => a := by
    funext a
    rfl
  rw [h]
  simp

theorem filter_filepath_singleton {db : List DbRow}
    (h : (db.map DbRow.filepath).Nodup) {r : DbRow} (hr : r ∈ db) :
    db.filter (fun d => d.filepath = r.filepath) = [r] := by
  induction db with
  | nil => cases hr
  | cons d db ih =>
    simp only [List.map_cons, List.nodup_cons] at h
    rcases List.mem_cons.mp hr with rfl | hr'
    · simp only [List.filter_cons, decide_true_eq_true]
      rw [if_pos (by simp)]
      congr 1
      apply List.filter_eq_nil_iff.mpr
      intro x hx
      simp only [decide_eq_true_eq]
      intro he
      exact h.1 (he ▸ List.mem_map_of_mem DbRow.filepath hx)
    · have hne : d.filepath ≠ r.filepath := by
        intro he
        exact h.1 (he ▸ List.mem_map_of_mem DbRow.filepath hr')
      simp only [List.filter_cons]
      rw [if_neg (by simpa using hne)]
      exact ih h.2 hr'

theorem mergeWithDb_block {db : List DbRow}
    (h : (db.map DbRow.filepath).Nodup) {r : DbRow} (hr : r ∈ db)
    {rows : List ResultRow} (hall : ∀ x ∈ rows, x.filepath = r.filepath) :
    mergeWithDb rows db = rows.map (fun x => mkContextRow x r) := by
  induction rows with
  | nil => rfl
  | cons x rows ih =>
    simp only [mergeWithDb, List.flatMap_cons] at *
    rw [hall x (List.mem_cons_self _ _), filter_filepath_singleton h hr]
    simp only [List.map_cons, List.map_nil, List.singleton_append,
      List.cons.injEq, true_and]
    exact ih (fun y hy => hall y (List.mem_cons_of_mem _ hy))

theorem flatMap_filter_key {α β K : Type} [DecidableEq K] (F : β → List α)
    (k : α → K) (key : β → K) :
    ∀ ps : List β, (∀ p ∈ ps, ∀ x ∈ F p, k x = key p) →
      (ps.map key).Nodup → ∀ p₀ ∈ ps,
        (ps.flatMap F).filter (fun x => k x = key p₀) = F p₀ := by
  intro ps
  induction ps with
  | nil =>
    intro _ _ p₀ hp
    cases hp
  | cons p ps ih =>
    intro hF hN p₀ hp₀
    rw [List.flatMap_cons, List.filter_append]
    rcases List.mem_cons.mp hp₀ with rfl | hp₀'
    · have h1 : (F p₀).filter (fun x => k x = key p₀) = F p₀ :=
        List.filter_eq_self.mpr (fun x hx => by
          simp [hF p₀ (List.mem_cons_self _ _) x hx])
      have h2 : (ps.flatMap F).filter (fun x => k x = key p₀) = [] := by
        apply List.filter_eq_nil_iff.mpr
        intro x hx
        rcases List.mem_flatMap.mp hx with ⟨q, hq, hxq⟩
        have hkx : k x = key q := hF q (List.mem_cons_of_mem _ hq) x hxq
        have hkq : key q ≠ key p₀ := by
          intro he
          exact (List.nodup_cons.mp hN).1 (he ▸ List.mem_map_of_mem key hq)
        simp [hkx, hkq]
      rw [h1, h2, List.append_nil]
    · have hkp : key p ≠ key p₀ := by
        intro he
        exact (List.nodup_cons.mp hN).1 (he ▸ List.mem_map_of_mem key hp₀')
      have h1 : (F p).filter (fun x => k x = key p₀) = [] := by
        apply List.filter_eq_nil_iff.mpr
        intro x hx
        have := hF p (List.mem_cons_self _ _) x hx
        simp [this, hkp]
      rw [h1, List.nil_append]
      exact ih (fun q hq => hF q (List.mem_cons_of_mem _ hq))
        (List.nodup_cons.mp hN).2 p₀ hp₀'

theorem loopPairs_fst (db : List DbRow) :
    (loopPairs db).map Prod.fst = db.reverse := by
  simp only [loopPairs]
  exact List.map_fst_zip _ _ (by simp)

theorem loopPairs_keys_nodup {db : List DbRow}
    (h : (db.map DbRow.filepath).Nodup) :
    ((loopPairs db).map (fun p => p.1.filepath)).Nodup := by
  have heq : ((loopPairs db).map (fun p => p.1.filepath))
      = (db.map DbRow.filepath).reverse := by
    have : (fun p : DbRow × DbRow => p.1.filepath)
        = DbRow.filepath ∘ Prod.fst := rfl
    rw [this, ← List.map_map, loopPairs_fst, List.map_reverse]
  rw [heq]
  exact List.nodup_reverse.mpr h

theorem loopPairs_fst_mem {db : List DbRow} {p : DbRow × DbRow}
    (hp : p ∈ loopPairs db) : p.1 ∈ db := by
  have := List.of_mem_zip (show (p.1, p.2) ∈ db.reverse.zip db from hp)
  exact List.mem_reverse.mp this.1

/-- The contextualised block produced for one loop pair: the computed result
rows joined with the dataset row carrying the pair's filepath. -/
def ctxBlock (detect : String → String → ℤ × ℤ → WlutzTriple)
    (algs : List String) (p : DbRow × DbRow) : List ContextRow :=
  (get_results_for_image detect p.1.filepath algs (p.2.width, p.2.length)).map
    (fun x => mkContextRow x p.1)

theorem loopResults_none (db : List DbRow) (algs : List String)
    (detect : String → String → ℤ × ℤ → WlutzTriple) :
    loopResults db none algs detect
      = (loopPairs db).flatMap (fun p =>
          get_results_for_image detect p.1.filepath algs
            (p.2.width, p.2.length)) := rfl

theorem ctxBlock_filepath {detect : String → String → ℤ × ℤ → WlutzTriple}
    {algs : List String} {p : DbRow × DbRow} {c : ContextRow}
    (hc : c ∈ ctxBlock detect algs p) : c.res.filepath = p.1.filepath := by
  rcases List.mem_map.mp hc with ⟨x, hx, rfl⟩
  exact get_results_filepath hx

theorem ctxBlock_map_res (detect : String → String → ℤ × ℤ → WlutzTriple)
    (algs : List String) (p : DbRow × DbRow) :
    (ctxBlock detect algs p).map (fun c => c.res)
      = get_results_for_image detect p.1.filepath algs
          (p.2.width, p.2.length) := by
  unfold ctxBlock
  rw [List.map_map]
  have h : ((fun c : ContextRow => c.res) ∘ fun x => mkContextRow x p.1)
      = fun x => x := by
    funext x
    rfl
  rw [h]
  simp

theorem ctxBlock_keys (detect : String → String → ℤ × ℤ → WlutzTriple)
    (algs : List String) (p : DbRow × DbRow) :
    (ctxBlock detect algs p).map (fun c => (c.res.filepath, c.res.algorithm))
      = algs.map (fun a => (p.1.filepath, a)) := by
  unfold ctxBlock get_results_for_image
  rw [List.map_map, List.map_map]
  congr 1

theorem mergeWithDb_flatMap {β : Type} (ps : List β)
    (F : β → List ResultRow) (db : List DbRow) :
    mergeWithDb (ps.flatMap F) db
      = ps.flatMap (fun p => mergeWithDb (F p) db) := by
  unfold mergeWithDb
  exact List.flatMap_assoc ps F _

theorem mergeWithDb_blocks (db : List DbRow) (algs : List String)
    (detect : String → String → ℤ × ℤ → WlutzTriple)
    (hdb : (db.map DbRow.filepath).Nodup) :
    mergeWithDb ((loopPairs db).flatMap (fun p =>
        get_results_for_image detect p.1.filepath algs
          (p.2.width, p.2.length))) db
      = (loopPairs db).flatMap (ctxBlock detect algs) := by
  rw [mergeWithDb_flatMap]
  apply List.flatMap_congr
  intro p hp
  rw [@mergeWithDb_block db hdb p.1 (loopPairs_fst_mem hp)
    (get_results_for_image detect p.1.filepath algs (p.2.width, p.2.length))
    (fun x hx => get_results_filepath hx)]
  rfl

theorem nodup_ctx (db : List DbRow) (algs : List String)
    (detect : String → String → ℤ × ℤ → WlutzTriple)
    (hdb : (db.map DbRow.filepath).Nodup) (halgs : algs.Nodup) :
    ((loopPairs db).flatMap (ctxBlock detect algs)).Nodup := by
  apply List.Nodup.of_map (fun c : ContextRow => (c.res.filepath, c.res.algorithm))
  rw [List.map_flatMap]
  rw [List.flatMap_congr (fun p _ => ctxBlock_keys detect algs p)]
  apply List.nodup_flatMap.mpr
  constructor
  · intro p _
    apply List.Nodup.map _ halgs
    intro a b hab
    injection hab
  · have hpw : List.Pairwise
        (fun p q : DbRow × DbRow => p.1.filepath ≠ q.1.filepath)
        (loopPairs db) :=
      List.pairwise_map.mp (loopPairs_keys_nodup hdb)
    apply hpw.imp
    intro p q hne
    intro x hxp hxq
    rcases List.mem_map.mp hxp with ⟨a, _, rfl⟩
    rcases List.mem_map.mp hxq with ⟨b, _, hx⟩
    injection hx with hx1 hx2
    exact hne hx1.symm

theorem run_calculation_none (db : List DbRow) (algs : List String)
    (detect : String → String → ℤ × ℤ → WlutzTriple)
    (hdb : (db.map DbRow.filepath).Nodup) (halgs : algs.Nodup) :
    run_calculation db none algs detect
      = (loopPairs db).flatMap (ctxBlock detect algs) := by
  unfold run_calculation
  rw [loopResults_none, mergeWithDb_blocks db algs detect hdb]
  simp only [Option.getD_none, List.append_nil]
  exact dropDuplicates_eq_self (nodup_ctx db algs detect hdb halgs)

theorem processRow_reuse (db : List DbRow) (algs : List String)
    (detect : String → String → ℤ × ℤ → WlutzTriple)
    (hdb : (db.map DbRow.filepath).Nodup) {p : DbRow × DbRow}
    (hp : p ∈ loopPairs db) :
    processRow (some ((loopPairs db).flatMap (ctxBlock detect algs))) algs
        p.1.filepath (p.2.width, p.2.length) detect
      = get_results_for_image detect p.1.filepath algs
          (p.2.width, p.2.length) := by
  have hfil : ((loopPairs db).flatMap (ctxBlock detect algs)).filter
      (fun c => c.res.filepath = p.1.filepath) = ctxBlock detect algs p :=
    flatMap_filter_key (ctxBlock detect algs) (fun c => c.res.filepath)
      (fun q => q.1.filepath) (loopPairs db)
      (fun q _ c hc => ctxBlock_filepath hc) (loopPairs_keys_nodup hdb) p hp
  have hpers : (((loopPairs db).flatMap (ctxBlock detect algs)).filter
        (fun c => c.res.filepath = p.1.filepath)).map (fun c => c.res)
      = get_results_for_image detect p.1.filepath algs
          (p.2.width, p.2.length) := by
    rw [hfil]
    exact ctxBlock_map_res detect algs p
  have hcond : (algs.all (fun a =>
      (((((loopPairs db).flatMap (ctxBlock detect algs)).filter
        (fun c => c.res.filepath = p.1.filepath)).map (fun c => c.res)).map
        (fun r => r.algorithm)).contains a)) = true := by
    rw [hpers, map_algorithm_get_results]
    apply List.all_eq_true.mpr
    intro a ha
    simpa using ha
  simp only [processRow]
  rw [hcond]
  simp only [if_true]
  exact hpers

/-- C3: running the batch runner a second time on an unchanged dataset, with
the persisted results produced by the first run, yields a merged table
identical to the first run's merged table — no new rows and no duplicate
rows are introduced. Stated for a dataset with distinct filepaths, a
duplicate-free nonempty algorithm selection, and the deterministic
(memoised) detection function of a single process. -/
theorem C3_second_run_idempotent (db : List DbRow) (algs : List String)
    (detect : String → String → ℤ × ℤ → WlutzTriple)
    (hdb : (db.map DbRow.filepath).Nodup) (halgs : algs.Nodup)
    (_hne : algs ≠ []) :
    run_calculation db (some (run_calculation db none algs detect)) algs detect
      = run_calculation db none algs detect := by
  rw [run_calculation_none db algs detect hdb halgs]
  unfold run_calculation
  have hloop2 : loopResults db
        (some ((loopPairs db).flatMap (ctxBlock detect algs))) algs detect
      = (loopPairs db).flatMap (fun p =>
          get_results_for_image detect p.1.filepath algs
            (p.2.width, p.2.length)) := by
    unfold loopResults
    exact List.flatMap_congr (fun p hp => processRow_reuse db algs detect hdb hp)
  rw [hloop2, mergeWithDb_blocks db algs detect hdb]
  simp only [Option.getD_some]
  rw [dropDuplicates_append_of_subset (fun x hx => hx)]
  exact dropDuplicates_eq_self (nodup_ctx db algs detect hdb halgs)

/-- C3 witness: on a concrete one-row dataset the second run reproduces the
first run's merged table exactly. -/
theorem C3_second_run_idempotent_witness :
    run_calculation exDb (some (run_calculation exDb none ["A"] exDetect))
        ["A"] exDetect
      = run_calculation exDb none ["A"] exDetect :=
  C3_second_run_idempotent exDb ["A"] exDetect (by decide) (by decide)
    (by decide)

/-- A concrete two-row dataset whose rows differ in width and length. -/
def exDb2 : List DbRow :=
  [{ filepath := "a", treatment := "t", port := "p", gantry := 0
     collimator := 0, width := 2, length := 3 },
   { filepath := "b", treatment := "t", port := "p", gantry := 0
     collimator := 0, width := 4, length := 5 }]

/-- C5 witness: on a concrete two-row dataset with differing geometry, loop
position 0 pairs the filepath of row 1 with the width and length of
row 0. -/
theorem C5_reversed_filepath_forward_geometry_witness :
    ∃ hz : 0 < (loopPairs exDb2).length,
      (loopPairs exDb2).get ⟨0, hz⟩
          = (exDb2.get ⟨exDb2.length - 1 - 0, by decide⟩,
             exDb2.get ⟨0, by decide⟩)
        ∧ (((loopPairs exDb2).get ⟨0, hz⟩).2.width,
              ((loopPairs exDb2).get ⟨0, hz⟩).2.length)
            ≠ (((loopPairs exDb2).get ⟨0, hz⟩).1.width,
               ((loopPairs exDb2).get ⟨0, hz⟩).1.length)
        ∧ loopResults exDb2 none ["A"] exDetect
            = (loopPairs exDb2).flatMap (fun p =>
                get_results_for_image exDetect p.1.filepath ["A"]
                  (p.2.width, p.2.length)) :=
  C5_reversed_filepath_forward_geometry exDb2 ["A"] exDetect 0 (by decide)
    (by decide)

/-!
## Claims C7, C8, C9: the constraint scorer
-/

theorem constraintRows_ctype {roi skey : String} {dvh : DVH}
    {cons : List (String × Constraint)} {x : ScoreRow}
    (hx : x ∈ constraintRows roi skey dvh cons) :
    x.ctype = "Mean" ∨ x.ctype = "Max" ∨ x.ctype = "V%" ∨ x.ctype = "D%" := by
  rcases List.mem_flatMap.mp hx with ⟨tc, _, hmem⟩
  rcases tc with ⟨ty, c⟩
  cases c with
  | placeholder => cases hmem
  | entries l =>
    dsimp only at hmem
    by_cases h1 : ty = "Mean"
    · rw [if_pos h1] at hmem
      rcases List.mem_map.mp hmem with ⟨e, _, rfl⟩
      exact Or.inl rfl
    · rw [if_neg h1] at hmem
      by_cases h2 : ty = "Max"
      · rw [if_pos h2] at hmem
        rcases List.mem_map.mp hmem with ⟨e, _, rfl⟩
        exact Or.inr (Or.inl rfl)
      · rw [if_neg h2] at hmem
        by_cases h3 : ty = "V%"
        · rw [if_pos h3] at hmem
          rcases List.mem_map.mp hmem with ⟨e, _, rfl⟩
          exact Or.inr (Or.inr (Or.inl rfl))
        · rw [if_neg h3] at hmem
          by_cases h4 : ty = "D%"
          · rw [if_pos h4] at hmem
            rcases List.mem_map.mp hmem with ⟨e, _, rfl⟩
            exact Or.inr (Or.inr (Or.inr rfl))
          · rw [if_neg h4] at hmem
            cases hmem

/-- C7: for every structure whose constraint table holds a non-placeholder
Mean entry with threshold `t`, the scorer emits a Mean row whose score is
`t` minus the DVH mean dose of the matched structure. -/
theorem C7_mean_score (roi skey : String) (dvh : DVH)
    (cons : List (String × Constraint)) (l : List (ℚ × ℚ)) (t v : ℚ)
    (h1 : ("Mean", Constraint.entries l) ∈ cons) (h2 : (t, v) ∈ l) :
    ∃ df, compare_structure_with_constraints roi skey dvh cons = some df ∧
      ({ roiName := roi, structureKey := skey, ctype := "Mean",
         doseGy := some t, volPct := none,
         actualDoseGy := some dvh.mean, actualVolPct := none,
         score := t - dvh.mean } : ScoreRow) ∈ df := by
  have hmem : ({ roiName := roi, structureKey := skey, ctype := "Mean",
                 doseGy := some t, volPct := none,
                 actualDoseGy := some dvh.mean, actualVolPct := none,
                 score := t - dvh.mean } : ScoreRow)
      ∈ constraintRows roi skey dvh cons := by
    apply List.mem_flatMap.mpr
    refine ⟨("Mean", Constraint.entries l), h1, ?_⟩
    dsimp only
    rw [if_pos rfl]
    exact List.mem_map_of_mem _ h2
  rcases hrows : constraintRows roi skey dvh cons with _ | ⟨r, rest⟩
  · rw [hrows] at hmem
    cases hmem
  · rw [hrows] at hmem
    refine ⟨(r :: rest) ++
      [{ roiName := r.roiName, structureKey := r.structureKey,
         ctype := "Average Score",
         doseGy := none, volPct := none,
         actualDoseGy := none, actualVolPct := none,
         score := ((r :: rest).map (fun x => x.score)).sum
           / ((r :: rest).length : ℚ) }], ?_, List.mem_append_left _ hmem⟩
    unfold compare_structure_with_constraints
    rw [hrows]
    rfl

/-- A concrete DVH with mean dose 20. -/
def exDVH : DVH :=
  { mean := 20, dvhMax := 25, volume := 100
    doseAtRelVol := fun _ => 0, doseAtAbsVol := fun _ => 0
    volumeAtDose := fun _ => 0 }

/-- A concrete constraint table with a single Mean threshold of 18. -/
def exCons : List (String × Constraint) :=
  [("Mean", Constraint.entries [(18, 0)])]

/-- C7 witness: with DVH mean 20.0 and Mean threshold 18.0 the emitted Mean
row's score is 18 − 20 = −2. -/
theorem C7_mean_score_witness :
    exDVH.mean = 20 ∧ ((18 : ℚ) - 20 = -2) ∧
    ∃ df, compare_structure_with_constraints "liver" "liver" exDVH exCons
        = some df ∧
      ({ roiName := "liver", structureKey := "liver", ctype := "Mean",
         doseGy := some 18, volPct := none,
         actualDoseGy := some exDVH.mean, actualVolPct := none,
         score := 18 - exDVH.mean } : ScoreRow) ∈ df :=
  ⟨rfl, by norm_num,
    C7_mean_score "liver" "liver" exDVH exCons [(18, 0)] 18 0
      (List.mem_singleton.mpr rfl) (List.mem_singleton.mpr rfl)⟩

/-- C9: an ROI name is matched to a structure key exactly when the ROI name
lower-cased and stripped of surrounding spaces is a member of that
structure's alias list, and an ROI matching no structure's aliases
contributes nothing to the scored table — it is excluded without error. -/
theorem C9_alias_matching (rois : List String)
    (aliases : List (String × List String)) (roi : String)
    (dvhOf : String → DVH) (consOf : String → List (String × Constraint))
    (hro : ∀ p ∈ aliases, pyLowerStrip roi ∉ p.2) :
    (∀ r s : String, (r, s) ∈ matchedPairs rois aliases
        ↔ r ∈ rois ∧ ∃ al, (s, al) ∈ aliases ∧ pyLowerStrip r ∈ al) ∧
      buildConstraintsTable (roi :: rois) aliases dvhOf consOf
        = buildConstraintsTable rois aliases dvhOf consOf := by
  constructor
  · intro r s
    constructor
    · intro h
      rcases List.mem_flatMap.mp h with ⟨r', hr', hmem⟩
      rcases List.mem_map.mp hmem with ⟨p, hp, heq⟩
      injection heq with e1 e2
      subst e1
      rcases List.mem_filter.mp hp with ⟨hpal, hcond⟩
      refine ⟨hr', p.2, ?_, by simpa using hcond⟩
      rw [← e2]
      exact hpal
    · rintro ⟨hr, al, hal, hmem⟩
      apply List.mem_flatMap.mpr
      refine ⟨r, hr, ?_⟩
      apply List.mem_map.mpr
      exact ⟨(s, al), List.mem_filter.mpr ⟨hal, by simpa using hmem⟩, rfl⟩
  · unfold buildConstraintsTable
    have hmp : matchedPairs (roi :: rois) aliases
        = matchedPairs rois aliases := by
      unfold matchedPairs
      rw [List.flatMap_cons]
      have hnil : aliases.filter (fun p => pyLowerStrip roi ∈ p.2) = [] :=
        List.filter_eq_nil_iff.mpr (fun p hp => by simpa using hro p hp)
      rw [hnil]
      simp
    rw [hmp]

/-- A concrete alias table assigning the single alias `"liver"` to the
structure key `"liver"`. -/
def exAliases : List (String × List String) :=
  [("liver", ["liver"])]

/-- C9 witness: the ROI `" Liver "` normalises to `"liver"` and hence
matches the alias `"liver"`, while `"liver_ptv"` matches nothing and adding
it to the ROI list leaves the scored table unchanged. -/
theorem C9_alias_matching_witness :
    pyLowerStrip " Liver " = "liver" ∧
    pyLowerStrip "liver_ptv" ∉ ["liver"] ∧
    ((∀ r s : String, (r, s) ∈ matchedPairs [" Liver "] exAliases
        ↔ r ∈ [" Liver "] ∧ ∃ al, (s, al) ∈ exAliases ∧ pyLowerStrip r ∈ al) ∧
      buildConstraintsTable ("liver_ptv" :: [" Liver "]) exAliases
          (fun _ => exDVH) (fun _ => exCons)
        = buildConstraintsTable [" Liver "] exAliases
            (fun _ => exDVH) (fun _ => exCons)) :=
  ⟨by decide, by decide,
    C9_alias_matching [" Liver "] exAliases "liver_ptv"
      (fun _ => exDVH) (fun _ => exCons) (by decide)⟩

theorem compare_types {roi skey : String} {dvh : DVH}
    {cons : List (String × Constraint)} {d : List ScoreRow}
    (hc : compare_structure_with_constraints roi skey dvh cons = some d) :
    ∀ x ∈ d, x.ctype = "Mean" ∨ x.ctype = "Max" ∨ x.ctype = "V%"
      ∨ x.ctype = "D%" ∨ x.ctype = "Average Score" := by
  unfold compare_structure_with_constraints calculate_average_OAR_score at hc
  rcases hrows : constraintRows roi skey dvh cons with _ | ⟨r, rest⟩
  · rw [hrows] at hc
    exact Option.noConfusion hc
  · rw [hrows] at hc
    have hd := Option.some.inj hc
    subst hd
    intro x hx
    rcases List.mem_append.mp hx with hx1 | hx2
    · have h4 := constraintRows_ctype
        (show x ∈ constraintRows roi skey dvh cons from hrows ▸ hx1)
      rcases h4 with h | h | h | h
      · exact Or.inl h
      · exact Or.inr (Or.inl h)
      · exact Or.inr (Or.inr (Or.inl h))
      · exact Or.inr (Or.inr (Or.inr (Or.inl h)))
    · have hxe := List.mem_singleton.mp hx2
      subst hxe
      exact Or.inr (Or.inr (Or.inr (Or.inr rfl)))

theorem collectScores_types (dvhOf : String → DVH)
    (consOf : String → List (String × Constraint)) :
    ∀ (ps : List (String × String)) (df : List ScoreRow),
      collectScores dvhOf consOf ps = some df →
      ∀ x ∈ df, x.ctype = "Mean" ∨ x.ctype = "Max" ∨ x.ctype = "V%"
        ∨ x.ctype = "D%" ∨ x.ctype = "Average Score" := by
  intro ps
  induction ps with
  | nil =>
    intro df h x hx
    have hd := Option.some.inj h
    rw [← hd] at hx
    cases hx
  | cons p rest ih =>
    intro df h x hx
    unfold collectScores at h
    rcases hc : compare_structure_with_constraints p.1 p.2 (dvhOf p.1)
        (consOf p.2) with _ | d1
    · rw [hc] at h
      exact Option.noConfusion h
    · rw [hc] at h
      rcases hrest : collectScores dvhOf consOf rest with _ | dr
      · rw [hrest] at h
        exact Option.noConfusion h
      · rw [hrest] at h
        have hd := Option.some.inj h
        subst hd
        rcases List.mem_append.mp hx with hx1 | hx2
        · exact compare_types hc x hx1
        · exact ih dr hrest x hx2

theorem append_single_filter_count {df : List ScoreRow} {w : ScoreRow}
    {ty : String} (hdf : ∀ x ∈ df, ¬(x.ctype = ty)) (hw : w.ctype = ty) :
    countType (df ++ [w]) ty = 1 ∧ scoresOfType (df ++ [w]) ty = [w.score] := by
  have h1 : df.filter (fun x => x.ctype = ty) = [] :=
    List.filter_eq_nil_iff.mpr (fun x hx => by simpa using hdf x hx)
  have h2 : [w].filter (fun x => x.ctype = ty) = [w] := by
    simp [List.filter_cons, hw]
  constructor
  · unfold countType
    rw [List.filter_append, h1, h2]
    rfl
  · unfold scoresOfType
    rw [List.filter_append, h1, h2]
    rfl

theorem append_single_filter_ne {df : List ScoreRow} {w : ScoreRow}
    {ty : String} (hdf : ∀ x ∈ df, ¬(x.ctype = ty)) (hw : w.ctype = ty) :
    (df ++ [w]).filter (fun r => r.ctype ≠ ty) = df := by
  rw [List.filter_append]
  have h1 : df.filter (fun r => r.ctype ≠ ty) = df :=
    List.filter_eq_self.mpr (fun x hx => by simpa using hdf x hx)
  have h2 : [w].filter (fun r => r.ctype ≠ ty) = [] := by
    simp [hw]
  rw [h1, h2, List.append_nil]

theorem append_single_filter_other {df : List ScoreRow} {w : ScoreRow}
    {ty : String} (hw : ¬(w.ctype = ty)) :
    (df ++ [w]).filter (fun r => r.ctype = ty)
      = df.filter (fun r => r.ctype = ty) := by
  rw [List.filter_append]
  have h2 : [w].filter (fun r => r.ctype = ty) = [] := by
    simp [hw]
  rw [h2, List.append_nil]

/-- C8: for every scored structure, exactly one `"Average Score"` row is
appended, and its score is the arithmetic mean (sum divided by count) of
that structure's individual constraint scores; and the final table contains
exactly one `"Total Score"` row whose score is the sum of the
`"Average Score"` rows' scores. -/
theorem C8_average_and_total_scores :
    (∀ (roi skey : String) (dvh : DVH) (cons : List (String × Constraint))
        (df : List ScoreRow),
      compare_structure_with_constraints roi skey dvh cons = some df →
        countType df "Average Score" = 1 ∧
          scoresOfType df "Average Score"
            = [((df.filter (fun r => r.ctype ≠ "Average Score")).map
                  (fun r => r.score)).sum
                / ((df.filter
                  (fun r => r.ctype ≠ "Average Score")).length : ℚ)]) ∧
    (∀ (rois : List String) (aliases : List (String × List String))
        (dvhOf : String → DVH)
        (consOf : String → List (String × Constraint)) (t : List ScoreRow),
      buildConstraintsTable rois aliases dvhOf consOf = some t →
        countType t "Total Score" = 1 ∧
          scoresOfType t "Total Score"
            = [(scoresOfType t "Average Score").sum]) := by
  constructor
  · intro roi skey dvh cons df hdf
    unfold compare_structure_with_constraints calculate_average_OAR_score at hdf
    rcases hrows : constraintRows roi skey dvh cons with _ | ⟨r, rest⟩
    · rw [hrows] at hdf
      exact Option.noConfusion hdf
    · rw [hrows] at hdf
      have hd := Option.some.inj hdf
      subst hd
      have htypes : ∀ x ∈ (r :: rest), ¬(x.ctype = "Average Score") := by
        intro x hx
        have h4 := constraintRows_ctype
          (show x ∈ constraintRows roi skey dvh cons from hrows ▸ hx)
        rcases h4 with h | h | h | h <;> rw [h] <;> decide
      have h1 : (r :: rest).filter (fun x => x.ctype = "Average Score") = [] :=
        List.filter_eq_nil_iff.mpr (fun x hx => by simpa using htypes x hx)
      have h1n : (r :: rest).filter (fun x => x.ctype ≠ "Average Score")
          = r :: rest :=
        List.filter_eq_self.mpr (fun x hx => by simpa using htypes x hx)
      constructor
      · unfold countType
        rw [List.filter_append, h1]
        simp
      · unfold scoresOfType
        rw [List.filter_append, h1, List.filter_append, h1n]
        simp
  · intro rois aliases dvhOf consOf t ht
    unfold buildConstraintsTable at ht
    rcases hcs : collectScores dvhOf consOf (matchedPairs rois aliases)
        with _ | df
    · rw [hcs] at ht
      exact Option.noConfusion ht
    · rw [hcs] at ht
      rw [Option.map_some'] at ht
      have hd := Option.some.inj ht
      subst hd
      have hdf5 := collectScores_types dvhOf consOf _ df hcs
      have htypes : ∀ x ∈ df, ¬(x.ctype = "Total Score") := by
        intro x hx
        rcases hdf5 x hx with h | h | h | h | h <;> rw [h] <;> decide
      have h1 : df.filter (fun x => x.ctype = "Total Score") = [] :=
        List.filter_eq_nil_iff.mpr (fun x hx => by simpa using htypes x hx)
      unfold calculate_total_score
      constructor
      · unfold countType
        rw [List.filter_append, h1]
        simp
      · unfold scoresOfType
        rw [List.filter_append, h1, List.filter_append]
        simp

/-- The Mean row of the concrete example: threshold 18, DVH mean 20. -/
def exMeanRow : ScoreRow :=
  { roiName := "liver", structureKey := "liver", ctype := "Mean"
    doseGy := some 18, volPct := none
    actualDoseGy := some 20, actualVolPct := none, score := -2 }

/-- The Average Score row of the concrete example. -/
def exAvgRow : ScoreRow :=
  { roiName := "liver", structureKey := "liver", ctype := "Average Score"
    doseGy := none, volPct := none
    actualDoseGy := none, actualVolPct := none, score := -2 }

/-- The Total Score row of the concrete example. -/
def exTotalRow : ScoreRow :=
  { roiName := "Total Patient", structureKey := "Total Patient"
    ctype := "Total Score"
    doseGy := none, volPct := none
    actualDoseGy := none, actualVolPct := none, score := -2 }

/-- C8 witness: on the concrete single-constraint example the structure
frame holds exactly one Average Score row with score (−2)/1 = −2, and the
final table holds exactly one Total Score row with score −2. -/
theorem C8_average_and_total_scores_witness :
    (countType [exMeanRow, exAvgRow] "Average Score" = 1 ∧
      scoresOfType [exMeanRow, exAvgRow] "Average Score"
        = [(([exMeanRow, exAvgRow].filter
              (fun r => r.ctype ≠ "Average Score")).map
              (fun r => r.score)).sum
            / (([exMeanRow, exAvgRow].filter
              (fun r => r.ctype ≠ "Average Score")).length : ℚ)]) ∧
    (countType [exMeanRow, exAvgRow, exTotalRow] "Total Score" = 1 ∧
      scoresOfType [exMeanRow, exAvgRow, exTotalRow] "Total Score"
        = [(scoresOfType [exMeanRow, exAvgRow, exTotalRow]
            "Average Score").sum]) := by
  have hA : compare_structure_with_constraints "liver" "liver" exDVH exCons
      = some [exMeanRow, exAvgRow] := by
    simp [compare_structure_with_constraints, constraintRows,
      calculate_average_OAR_score, exCons, exDVH, exMeanRow, exAvgRow]
    norm_num
  have hmatch : matchedPairs ["liver"] exAliases = [("liver", "liver")] := by
    decide
  have hB : buildConstraintsTable ["liver"] exAliases (fun _ => exDVH)
      (fun _ => exCons) = some [exMeanRow, exAvgRow, exTotalRow] := by
    unfold buildConstraintsTable
    rw [hmatch]
    simp [collectScores, hA, calculate_total_score, exMeanRow, exAvgRow,
      exTotalRow]
  exact ⟨C8_average_and_total_scores.1 "liver" "liver" exDVH exCons
      [exMeanRow, exAvgRow] hA,
    C8_average_and_total_scores.2 ["liver"] exAliases (fun _ => exDVH)
      (fun _ => exCons) [exMeanRow, exAvgRow, exTotalRow] hB⟩
